import Mathlib

/-!
Verification of the pantone-scraper core (parser.py, downloader.py) against its
specification.  The Python source is shallowly embedded: pure helpers become
Lean functions over `List Char` / `String`, the regex rule set is run by a
small backtracking matcher reproducing Python `re` semantics (leftmost match,
ordered alternation, greedy quantifiers) for the constructs those patterns
use, and the stateful downloader becomes explicit state passing.
-/

namespace Scraper

/-! ### Character classes and basic string helpers -/

/-- Lower-case a character (ASCII, as `str.lower` acts on the inputs used). -/
def lowerCh (c : Char) : Char := c.toLower

/-- Case-insensitive character equality, for `re.IGNORECASE` literals. -/
def ciEqCh (a b : Char) : Bool := lowerCh a == lowerCh b

/-- Python `\s` (ASCII range, the only whitespace in the scraped texts). -/
def isSpaceCh (c : Char) : Bool :=
  c == ' ' || c == '\t' || c == '\n' || c == '\r' || c == Char.ofNat 11 || c == Char.ofNat 12

/-- Python `\d` on the ASCII digits occurring in the inputs. -/
def isDigitCh (c : Char) : Bool := c.isDigit

/-- `[A-Z]` (equally `[a-z]`) under `re.IGNORECASE`: any ASCII letter. -/
def isLetterCh (c : Char) : Bool := c.isUpper || c.isLower

/-- `[A-Z]` without `IGNORECASE`. -/
def isUpperCh (c : Char) : Bool := c.isUpper

/-- `[a-z]` without `IGNORECASE`. -/
def isLowerCh (c : Char) : Bool := c.isLower

/-- `[0-9A-Fa-f]`. -/
def isHexCh (c : Char) : Bool :=
  c.isDigit || ('A' ≤ c && c ≤ 'F') || ('a' ≤ c && c ≤ 'f')

/-- Lower-case a char list (`str.lower`). -/
def lowerL (s : List Char) : List Char := s.map lowerCh

/-- `str.strip()`: drop leading and trailing whitespace. -/
def pyStrip (s : List Char) : List Char :=
  ((s.dropWhile (fun c => isSpaceCh c)).reverse.dropWhile (fun c => isSpaceCh c)).reverse

/-- `str.split()`: split on whitespace runs, dropping empty words. -/
def pyWords (s : List Char) : List (List Char) :=
  match s with
  | [] => []
  | c :: rest =>
    if isSpaceCh c then pyWords rest
    else
      match pyWords rest with
      | [] => [[c]]
      | w :: ws =>
        -- glue `c` onto the following word unless a space separated them
        match rest with
        | [] => [[c]]
        | d :: _ => if isSpaceCh d then [c] :: w :: ws else (c :: w) :: ws

/-- `' '.join(text.split())`: collapse all whitespace runs to single spaces. -/
def normalizeWs (s : List Char) : List Char :=
  (pyWords s).intersperse [' '] |>.flatten

/-- Does `pat` occur as a contiguous substring of `s`? (`re.search` of a
literal pattern, and Python's `in` on strings). -/
def startsWithL (s pat : List Char) : Bool :=
  match pat, s with
  | [], _ => true
  | _ :: _, [] => false
  | p :: ps, c :: cs => p == c && startsWithL cs ps

def containsSub (s pat : List Char) : Bool :=
  match s with
  | [] => pat.isEmpty
  | _ :: rest => startsWithL s pat || containsSub rest pat

/-- Does `s` end with `pat`? (`$`-anchored literal pattern, `str.endswith`). -/
def endsWithL (s pat : List Char) : Bool := startsWithL s.reverse pat.reverse

end Scraper

namespace Scraper

/-! ### A backtracking regex matcher

Python's `re` engine explores alternatives depth first: alternation tries its
branches left to right and quantifiers are greedy.  The enumerator below
returns every way a regex can match a prefix of the input, ordered by that
exploration priority, so its head is exactly the match Python commits to.
The only quantifiers the scraper's patterns apply are `+`/`*`/`?` on single
character classes, which `starCls` covers.  -/

/-- Captured groups: `(index, captured characters)`. -/
abbrev Groups := List (Nat × List Char)

inductive RE where
  /-- empty regex -/
  | eps : RE
  /-- a literal character; `ci` selects `re.IGNORECASE` comparison -/
  | lit : Char → Bool → RE
  /-- a single-character class such as `\d`, `\s`, `[A-Z]` -/
  | cls : (Char → Bool) → RE
  /-- `c*` for a character class `c`, greedy -/
  | starCls : (Char → Bool) → RE
  | seq : RE → RE → RE
  /-- ordered alternation, left branch preferred -/
  | alt : RE → RE → RE
  /-- capture group with its Python group number -/
  | group : Nat → RE → RE
  /-- negative lookahead `(?!...)` -/
  | nlk : RE → RE

/-- Remainders after consuming `0..k` chars of the maximal `p`-run,
longest-consumed first (greedy order). -/
def clsRun (p : Char → Bool) : List Char → List (List Char)
  | [] => [[]]
  | c :: s => if p c then clsRun p s ++ [c :: s] else [c :: s]

/-- All matches of `r` against a prefix of `s`, as `(remaining input, groups)`
pairs in backtracking priority order. -/
def mrun : RE → List Char → List (List Char × Groups)
  | .eps, s => [(s, [])]
  | .lit _ _, [] => []
  | .lit c ci, a :: s =>
    if (if ci then ciEqCh a c else a == c) then [(s, [])] else []
  | .cls _, [] => []
  | .cls p, a :: s => if p a then [(s, [])] else []
  | .starCls p, s => (clsRun p s).map (fun s2 => (s2, []))
  | .seq r1 r2, s =>
    (mrun r1 s).flatMap (fun x =>
      (mrun r2 x.1).map (fun y => (y.1, x.2 ++ y.2)))
  | .alt r1 r2, s => mrun r1 s ++ mrun r2 s
  | .group i r, s =>
    (mrun r s).map (fun x => (x.1, x.2 ++ [(i, s.take (s.length - x.1.length))]))
  | .nlk r, s => if (mrun r s).isEmpty then [(s, [])] else []

/-- The match Python's engine commits to at the current position, if any. -/
def pyMatchHere (r : RE) (s : List Char) : Option (List Char × Groups) :=
  (mrun r s).head?

/-- Value of capture group `i` in a match (empty if absent). -/
def groupVal (g : Groups) (i : Nat) : List Char :=
  match g.find? (fun x => x.1 == i) with
  | some x => x.2
  | none => []

/-- `re.findall` group tuples: scan left to right, emit each non-overlapping
match's groups, resume after the matched span (advancing one character past
an empty match, as Python does).  The recursion is driven by a fuel that
bounds the number of scan positions; every step strictly shortens the
input, so the caller's `length + 1` fuel never runs out. -/
def findAllAux (r : RE) : Nat → List Char → List Groups
  | 0, _ => []
  | fuel + 1, s =>
    match s with
    | [] =>
      match pyMatchHere r [] with
      | some x => [x.2]
      | none => []
    | c :: rest =>
      match pyMatchHere r (c :: rest) with
      | some x =>
        if x.1.length < rest.length + 1 then
          x.2 :: findAllAux r fuel x.1
        else
          x.2 :: findAllAux r fuel rest
      | none => findAllAux r fuel rest

def findAllFrom (r : RE) (s : List Char) : List Groups :=
  findAllAux r (s.length + 1) s

/-- `re.search`: the groups of the first match anywhere in `s`, if any. -/
def reSearch (r : RE) : List Char → Option Groups
  | [] => (pyMatchHere r []).map (fun x => x.2)
  | c :: rest =>
    match pyMatchHere r (c :: rest) with
    | some x => some x.2
    | none => reSearch r rest

/-- `re.match`: does `r` match at the start of `s`? -/
def reMatchStart (r : RE) (s : List Char) : Bool :=
  (pyMatchHere r s).isSome

/-- A case-insensitive literal word. -/
def litWord (w : List Char) : RE :=
  w.foldr (fun c r => .seq (.lit c true) r) .eps

/-- A case-sensitive literal word. -/
def litWordCS (w : List Char) : RE :=
  w.foldr (fun c r => .seq (.lit c false) r) .eps

/-- `c+` for a character class: one occurrence then the greedy star. -/
def plusCls (p : Char → Bool) : RE := .seq (.cls p) (.starCls p)

/-- `r?`, greedy: prefer matching `r`. -/
def optRE (r : RE) : RE := .alt r .eps

end Scraper

namespace Scraper

/-! ### The Pantone extraction rule set (`PANTONE_PATTERNS` and its caller) -/

/-- `\s+` -/
def sp1 : RE := plusCls isSpaceCh

/-- `\s*` -/
def sp0 : RE := .starCls isSpaceCh

/-- `\d{2}-\d{4}`: the numeric-code shape. -/
def codeRE : RE :=
  .seq (.cls isDigitCh) (.seq (.cls isDigitCh) (.seq (.lit '-' true)
    (.seq (.cls isDigitCh) (.seq (.cls isDigitCh)
      (.seq (.cls isDigitCh) (.cls isDigitCh))))))

/-- `(?:TCX|TPX|TPG|C|U)`, ordered alternation. -/
def qualifierRE : RE :=
  .alt (litWord ['T', 'C', 'X'])
    (.alt (litWord ['T', 'P', 'X'])
      (.alt (litWord ['T', 'P', 'G'])
        (.alt (litWord ['C']) (litWord ['U']))))

/-- `[A-Z][a-z]+(?:\s+[A-Z][a-z]+)?` under `IGNORECASE`: one or two words. -/
def nameRE : RE :=
  .seq (.cls isLetterCh) (.seq (plusCls isLetterCh)
    (optRE (.seq sp1 (.seq (.cls isLetterCh) (plusCls isLetterCh)))))

/-- `PANTONE` label, case-insensitive. -/
def pantoneLbl : RE := litWord ['P', 'A', 'N', 'T', 'O', 'N', 'E']

/-- `PANTONE\s+(\d{2}-\d{4})\s*(?:TCX|TPX|TPG|C|U)\s+(name)` -/
def pantonePat1 : RE :=
  .seq pantoneLbl (.seq sp1 (.seq (.group 1 codeRE)
    (.seq sp0 (.seq qualifierRE (.seq sp1 (.group 2 nameRE))))))

/-- `PANTONE\s+(\d{2}-\d{4})\s+(name)` -/
def pantonePat2 : RE :=
  .seq pantoneLbl (.seq sp1 (.seq (.group 1 codeRE) (.seq sp1 (.group 2 nameRE))))

/-- `PANTONE\s+(name)\s+(\d{2}-\d{4})(?!\d)` -/
def pantonePat3 : RE :=
  .seq pantoneLbl (.seq sp1 (.seq (.group 1 nameRE)
    (.seq sp1 (.seq (.group 2 codeRE) (.nlk (.cls isDigitCh))))))

/-- `PANTONE_PATTERNS` in their fixed priority order. -/
def pantonePatterns : List RE := [pantonePat1, pantonePat2, pantonePat3]

/-- `PantoneColor` (models/pantone.py); `full_name` is filled in by
`__post_init__` since every extractor call site leaves it empty. -/
structure PantoneColor where
  color_code : List Char
  color_name : List Char
  full_name : List Char
  hex_value : Option (List Char)
deriving DecidableEq, Repr

def mkPantoneColor (code name : List Char) (hex : Option (List Char)) : PantoneColor :=
  { color_code := code, color_name := name
    full_name :=
      ['P', 'A', 'N', 'T', 'O', 'N', 'E', ' '] ++ code ++ [' '] ++ name
    hex_value := hex }

/-- The caller's group re-validation: `re.match(r'\d{2}-\d{4}', s)`. -/
def looksLikeCode (s : List Char) : Bool := reMatchStart codeRE s

/-- One pattern family's contribution (parser.py 278-296 / 333-353): for each
`findall` tuple decide which group is the code, then append unless the code
was already seen in this scope. -/
def addTextMatches (hex : Option (List Char)) (colors0 : List PantoneColor)
    (pairs : List Groups) : List PantoneColor :=
  pairs.foldl (fun colors g =>
    let m0 := groupVal g 1
    let m1 := groupVal g 2
    let code := if looksLikeCode m0 then m0 else m1
    let name := if looksLikeCode m0 then pyStrip m1 else pyStrip m0
    if colors.any (fun c => c.color_code == code) then colors
    else colors ++ [mkPantoneColor code name hex]) colors0

/-- Run the three pattern families in priority order over one normalized text
scope, extending `colors0` with the per-scope dedup by code. -/
def runPatternsOn (hex : Option (List Char)) (colors0 : List PantoneColor)
    (text : List Char) : List PantoneColor :=
  pantonePatterns.foldl
    (fun colors pat => addTextMatches hex colors (findAllFrom pat text)) colors0

/-- One invocation of the rule set on a text scope: whitespace normalization
followed by the prioritized pattern families with dedup by code, exactly the
regex section of `_extract_all_pantone_colors` (equally the loop of
`_extract_pantone_from_container` with no hex value). -/
def rulesetOnText (text : List Char) : List PantoneColor :=
  runPatternsOn none [] (normalizeWs text)

end Scraper

namespace Scraper

/-! ### Parsed documents

The extractor receives a parsed document (BeautifulSoup tree); the embedding
works on that tree directly.  Elements carry a tag, attributes and children;
`find`/`select` search descendants in document order, as BeautifulSoup does. -/

inductive HNode where
  | elem (tag : String) (attrs : List (String × String)) (children : List HNode)
  | text (s : String)

def HNode.isElem : HNode → Bool
  | .elem _ _ _ => true
  | .text _ => false

/-- `node.get(attr)`: first attribute of that name, if present. -/
def getAttr (n : HNode) (a : String) : Option String :=
  match n with
  | .elem _ attrs _ => (attrs.find? (fun p => p.1 == a)).map (fun p => p.2)
  | .text _ => none

/-- Python truthiness on an optional string: `None` and `""` are falsy. -/
def pyTruthy (o : Option String) : Option String :=
  match o with
  | some s => if s.isEmpty then none else some s
  | none => none

mutual

/-- All descendant nodes in document (pre-)order. -/
def descendants : HNode → List HNode
  | .elem _ _ cs => descendantsList cs
  | .text _ => []

def descendantsList : List HNode → List HNode
  | [] => []
  | c :: cs => c :: (descendants c ++ descendantsList cs)

end

mutual

/-- The strings of every text node below `n`, in document order. -/
def textsOf : HNode → List String
  | .text s => [s]
  | .elem _ _ cs => textsOfList cs

def textsOfList : List HNode → List String
  | [] => []
  | c :: cs => textsOf c ++ textsOfList cs

end

/-- `get_text(separator=' ')`: join all text-node strings with one space. -/
def getTextSep (n : HNode) : List Char := (String.intercalate " " (textsOf n)).data

/-- Class tokens of an element (the whitespace-split `class` attribute). -/
def classTokens (n : HNode) : List (List Char) :=
  match getAttr n "class" with
  | some v => pyWords v.data
  | none => []

/-- The CSS selector shapes the scraper uses. -/
inductive Sel where
  | byClass (c : String)
  | hasAttr (a : String)
  | tagClass (t c : String)
deriving DecidableEq, Repr

def matchesSel (n : HNode) (s : Sel) : Bool :=
  match n, s with
  | .text _, _ => false
  | .elem _ _ _, .byClass c => (classTokens n).any (fun t => t == c.data)
  | .elem _ _ _, .hasAttr a => (getAttr n a).isSome
  | .elem tg _ _, .tagClass t c => tg == t && (classTokens n).any (fun tk => tk == c.data)

/-- `soup.select(sel)`: matching descendants in document order. -/
def selectAll (root : HNode) (s : Sel) : List HNode :=
  (descendants root).filter (fun n => matchesSel n s)

/-- `select` with a comma-separated selector list: descendants matching any
alternative, in document order. -/
def selectAny (root : HNode) (ss : List Sel) : List HNode :=
  (descendants root).filter (fun n => ss.any (fun s => matchesSel n s))

/-- `soup.select_one(sel)`. -/
def selectOne (root : HNode) (s : Sel) : Option HNode := (selectAll root s).head?

/-- `soup.find(tag)`: first descendant element with that tag. -/
def findTag (root : HNode) (t : String) : Option HNode :=
  ((descendants root).filter (fun n =>
    match n with
    | .elem tg _ _ => tg == t
    | .text _ => false)).head?

/-- `soup.find_all(tag)`. -/
def findAllTag (root : HNode) (t : String) : List HNode :=
  (descendants root).filter (fun n =>
    match n with
    | .elem tg _ _ => tg == t
    | .text _ => false)

/-- `soup.find_all(attrs={a: True})` / `find_all(style=True)`: descendants
carrying the attribute. -/
def findAllWithAttr (root : HNode) (a : String) : List HNode :=
  (descendants root).filter (fun n => (getAttr n a).isSome)

/-! ### URL helpers

`urljoin`/`urlparse` model `urllib.parse` on the URL shapes the scraper
meets: absolute base URLs, and references that are absolute, scheme-relative,
host-relative or path-relative. -/

/-- Leading `scheme:` split, when the prefix is a valid scheme. -/
def takeSchemeAux : List Char → Option (List Char × List Char)
  | [] => none
  | c :: rest =>
    if c == ':' then some ([], rest)
    else if c.isAlphanum || c == '+' || c == '-' || c == '.' then
      match takeSchemeAux rest with
      | some (s, r) => some (c :: s, r)
      | none => none
    else none

def schemeOf (u : List Char) : Option (List Char × List Char) :=
  match takeSchemeAux u with
  | some (s, r) =>
    match s with
    | [] => none
    | c0 :: _ => if c0.isAlpha then some (s, r) else none
  | none => none

/-- `urlparse(u).path`. -/
def urlPathOf (u : List Char) : List Char :=
  let rest := match schemeOf u with
    | some x => x.2
    | none => u
  let rest2 :=
    if startsWithL rest ['/', '/'] then
      (rest.drop 2).dropWhile (fun c => !(c == '/' || c == '?' || c == '#'))
    else rest
  rest2.takeWhile (fun c => !(c == '?' || c == '#'))

/-- `scheme://host` of an absolute base, and its path. -/
def baseSplit (base : List Char) : List Char × List Char :=
  match schemeOf base with
  | some (s, r) =>
    if startsWithL r ['/', '/'] then
      let hostrest := r.drop 2
      let host := hostrest.takeWhile (fun c => c != '/')
      let path := hostrest.dropWhile (fun c => c != '/')
      (s ++ [':', '/', '/'] ++ host, if path.isEmpty then ['/'] else path)
    else (s ++ [':'], r)
  | none => ([], base)

/-- Base path up to and including its last `/`. -/
def dirOf (p : List Char) : List Char :=
  (p.reverse.dropWhile (fun c => c != '/')).reverse

/-- `urljoin(base, url)`. -/
def urljoin (base url : List Char) : List Char :=
  if url.isEmpty then base
  else
    match schemeOf url with
    | some _ => url
    | none =>
      let bp := baseSplit base
      if startsWithL url ['/', '/'] then
        (match schemeOf base with
         | some x => x.1
         | none => []) ++ [':'] ++ url
      else if url.head? == some '/' then bp.1 ++ url
      else bp.1 ++ dirOf bp.2 ++ url

end Scraper

namespace Scraper

/-! ### The content extractor (`PageParser`) -/

/-- First-seen-order deduplication, `list(dict.fromkeys(xs))`. -/
def fsdAux {α : Type} [DecidableEq α] (seen : List α) : List α → List α
  | [] => []
  | x :: xs => if x ∈ seen then fsdAux seen xs else x :: fsdAux (seen ++ [x]) xs

def fsDedup {α : Type} [DecidableEq α] (l : List α) : List α := fsdAux [] l

/-- `DesignerBrand` (models/pantone.py); the construction-time timestamp and
the free-form `extra_info` dict are outside the model. -/
structure DesignerBrand where
  brand_name : List Char
  image_url : List Char
  local_image_path : List Char
  colors : List PantoneColor
  page_url : List Char
deriving DecidableEq, Repr

/-- The ordered structural container selectors of `_find_content_containers`. -/
def containerSelectors : List Sel :=
  [ .byClass "product-item", .byClass "brand-item", .byClass "design-item",
    .byClass "gallery-item", .byClass "trend-item", .byClass "color-card",
    .tagClass "article" "item", .byClass "card", .hasAttr "data-pantone",
    .byClass "style-item" ]

/-- First selector with at least one match wins; none match gives `[]`. -/
def firstNonemptyL {α : Type} : List (List α) → List α
  | [] => []
  | l :: ls => if l.isEmpty then firstNonemptyL ls else l

def findContentContainers (soup : HNode) : List HNode :=
  firstNonemptyL (containerSelectors.map (fun s => selectAll soup s))

/-- `_get_image_url`: attribute priority list, first truthy value wins,
resolved against the base URL. -/
def urlAttrList : List String := ["data-original", "data-src", "data-lazy-src", "src"]

def getImageUrl (base : List Char) (img : HNode) : Option (List Char) :=
  match urlAttrList.findSome? (fun a => pyTruthy (getAttr img a)) with
  | some u => some (urljoin base u.data)
  | none => none

/-- The exclusion denylist of `_is_valid_image`, in source order; each regex
is a plain substring except `\.ico$`, which is a suffix test. -/
def exclMatch (u : List Char) : Bool :=
  containsSub u ['/', 'i', 'c', 'o', 'n'] ||
  containsSub u ['/', 'l', 'o', 'g', 'o'] ||
  endsWithL u ['.', 'i', 'c', 'o'] ||
  containsSub u "/placeholder".data ||
  containsSub u "/loading".data ||
  containsSub u "data:image".data ||
  containsSub u "/avatar".data ||
  containsSub u "/thumb".data ||
  containsSub u "_small".data ||
  containsSub u "_mini".data

def imageExtensions : List (List Char) :=
  [".jpg".data, ".jpeg".data, ".png".data, ".gif".data, ".webp".data, ".bmp".data]

/-- `_is_valid_image`, including its final catch-all `return True`. -/
def isValidImage (url : List Char) : Bool :=
  let ul := lowerL url
  if exclMatch ul then false
  else
    let path := lowerL (urlPathOf url)
    if imageExtensions.any (fun e => endsWithL path e) then true
    else if containsSub ul "image".data || containsSub ul "img".data ||
        containsSub ul "photo".data then true
    else true

/-- `url\(["\']?([^"\'()]+)["\']?\)`, the inline-style background scan. -/
def isQuoteCh (c : Char) : Bool := c == '"' || c == Char.ofNat 39
def isBgBodyCh (c : Char) : Bool :=
  !(c == '"' || c == Char.ofNat 39 || c == '(' || c == ')')

def cssUrlRE : RE :=
  .seq (litWordCS ['u', 'r', 'l', '('])
    (.seq (optRE (.cls isQuoteCh))
      (.seq (.group 1 (plusCls isBgBodyCh))
        (.seq (optRE (.cls isQuoteCh)) (.lit ')' false))))

/-- The image URLs `_extract_all_images` accumulates before its final
dedup: valid `img`-tag URLs, then valid inline-style background URLs. -/
def collectImages (base : List Char) (soup : HNode) : List (List Char) :=
  let fromImgs := (findAllTag soup "img").foldl (fun acc img =>
    match getImageUrl base img with
    | some url => if !url.isEmpty && isValidImage url then acc ++ [url] else acc
    | none => acc) []
  (findAllWithAttr soup "style").foldl (fun acc e =>
    let style := ((getAttr e "style").getD "").data
    ((findAllFrom cssUrlRE style).map (fun g => groupVal g 1)).foldl
      (fun acc u =>
        let fu := urljoin base u
        if isValidImage fu then acc ++ [fu] else acc) acc) fromImgs

/-- `_extract_all_images`: the accumulated URLs deduplicated in first-seen
order (`list(dict.fromkeys(images))`). -/
def extractAllImages (base : List Char) (soup : HNode) : List (List Char) :=
  fsDedup (collectImages base soup)

/-- `#([0-9A-Fa-f]{6}|[0-9A-Fa-f]{3})`, six hex digits preferred. -/
def hexRunRE (n : Nat) : RE :=
  (List.replicate n (RE.cls isHexCh)).foldr RE.seq .eps

def hexColorRE : RE :=
  .seq (.lit '#' false) (.group 1 (.alt (hexRunRE 6) (hexRunRE 3)))

/-- `_extract_hex_from_container`: own style attribute, then `data-hex`,
then the first styled descendant. -/
def extractHexFromContainer (c : HNode) : Option (List Char) :=
  match reSearch hexColorRE ((getAttr c "style").getD "").data with
  | some g => some ('#' :: groupVal g 1)
  | none =>
    match pyTruthy (getAttr c "data-hex") with
    | some h => some (if startsWithL h.data ['#'] then h.data else '#' :: h.data)
    | none =>
      (findAllWithAttr c "style").findSome? (fun ch =>
        (reSearch hexColorRE ((getAttr ch "style").getD "").data).map
          (fun g => '#' :: groupVal g 1))

/-- `_extract_pantone_from_container`: the rule set on the container's
normalized text, each match carrying the container's hex value. -/
def extractPantoneFromContainer (c : HNode) : List PantoneColor :=
  runPatternsOn (extractHexFromContainer c) [] (normalizeWs (getTextSep c))

/-- `_parse_color_attribute`: first pattern with an `re.search` hit wins. -/
def parseColorAttribute (colorInfo : List Char) (hex : Option (List Char)) :
    Option PantoneColor :=
  if colorInfo.isEmpty then none
  else
    pantonePatterns.findSome? (fun pat =>
      (reSearch pat colorInfo).map (fun g =>
        let m0 := groupVal g 1
        let m1 := groupVal g 2
        let code := if looksLikeCode m0 then m0 else m1
        let name := if looksLikeCode m0 then pyStrip m1 else pyStrip m0
        mkPantoneColor code name hex))

/-- The color-card container selectors of `_extract_all_pantone_colors`. -/
def colorContainerSelectors : List Sel :=
  [.byClass "pantone", .byClass "color-info", .byClass "color-block",
   .byClass "pantone-color"]

/-- Append `col` unless its code is already present (the shared dedup). -/
def addColorDedup (colors : List PantoneColor) (col : PantoneColor) :
    List PantoneColor :=
  if colors.any (fun c => c.color_code == col.color_code) then colors
  else colors ++ [col]

/-- `_extract_all_pantone_colors`: rule set on the whole-document text, then
`data-color` attribute encodings, then the color-card containers, all merged
into one dedup-by-code list. -/
def extractAllPantoneColors (soup : HNode) : List PantoneColor :=
  let colors := runPatternsOn none [] (normalizeWs (getTextSep soup))
  let colors := (findAllWithAttr soup "data-color").foldl (fun colors e =>
    match parseColorAttribute ((getAttr e "data-color").getD "").data
        ((getAttr e "data-hex").map (fun s => s.data)) with
    | some col => addColorDedup colors col
    | none => colors) colors
  (selectAny soup colorContainerSelectors).foldl (fun colors cont =>
    (extractPantoneFromContainer cont).foldl addColorDedup colors) colors

/-- `_extract_brand_name` (whole document): title text before the first `|`
then first `-`, else the first `h1`, else the first label-class element; the
latter two return even an empty stripped text. -/
def takeBeforeCh (c : Char) (s : List Char) : List Char :=
  s.takeWhile (fun x => x != c)

def brandFromLabelClasses (soup : HNode) : Option (List Char) :=
  ([Sel.byClass "brand-name", Sel.byClass "designer-name",
    Sel.byClass "title"].findSome? (fun s => selectOne soup s)).map
    (fun e => pyStrip (getTextSep e))

def extractBrandName (soup : HNode) : Option (List Char) :=
  let fromTitle :=
    match findTag soup "title" with
    | some t => pyStrip (takeBeforeCh '-' (takeBeforeCh '|' (getTextSep t)))
    | none => []
  if !fromTitle.isEmpty then some fromTitle
  else
    match findTag soup "h1" with
    | some h => some (pyStrip (getTextSep h))
    | none => brandFromLabelClasses soup

/-- `_extract_brand_name(soup) or "Unknown"` in the Tier-2 record builder. -/
def unknownLit : List Char := ['U', 'n', 'k', 'n', 'o', 'w', 'n']

def brandNameOrUnknown (soup : HNode) : List Char :=
  match extractBrandName soup with
  | some s => if s.isEmpty then unknownLit else s
  | none => unknownLit

/-- The Tier-1 sentinel. -/
def unknownBrandLit : List Char :=
  ['U', 'n', 'k', 'n', 'o', 'w', 'n', ' ', 'B', 'r', 'a', 'n', 'd']

/-- The heading probes of `_extract_brand_name_from_container`, in order. -/
def containerNameProbes (c : HNode) : List (Option HNode) :=
  [findTag c "h1", findTag c "h2", findTag c "h3", findTag c "h4",
   selectOne c (.byClass "title"), selectOne c (.byClass "name"),
   selectOne c (.byClass "brand")]

/-- The heading/label-class heuristic: first probe with a nonempty stripped
text. -/
def containerHeadingName (c : HNode) : Option (List Char) :=
  (containerNameProbes c).findSome? (fun oe =>
    oe.bind (fun e =>
      let t := pyStrip (getTextSep e)
      if t.isEmpty then none else some t))

/-- `container.get('data-brand') or container.get('data-name')`, then the
truthiness guard. -/
def containerDataName (c : HNode) : Option String :=
  match pyTruthy (getAttr c "data-brand") with
  | some b => some b
  | none => pyTruthy (getAttr c "data-name")

/-- The image `alt`-text heuristic. -/
def containerAltName (c : HNode) : Option String :=
  (findTag c "img").bind (fun img => pyTruthy (some ((getAttr img "alt").getD "")))

/-- `_extract_brand_name_from_container`: headings and label classes with a
nonempty stripped text, then `data-brand` / `data-name`, then the image's
`alt` text, else the sentinel. -/
def extractBrandNameFromContainer (c : HNode) : List Char :=
  match containerHeadingName c with
  | some t => t
  | none =>
    match containerDataName c with
    | some b => b.data
    | none =>
      match containerAltName c with
      | some alt => alt.data
      | none => unknownBrandLit

/-- `_parse_container`: needs an image with a resolvable URL, else no record. -/
def parseContainer (base pageUrl : List Char) (c : HNode) : Option DesignerBrand :=
  match findTag c "img" with
  | none => none
  | some img =>
    match getImageUrl base img with
    | none => none
    | some url =>
      some { brand_name := extractBrandNameFromContainer c
             image_url := url
             local_image_path := []
             colors := extractPantoneFromContainer c
             page_url := pageUrl }

/-- `parse_designer_page`: Tier 1 over the first non-empty container set,
else the Tier-2 whole-document fallback. -/
def parseDesignerPage (base : List Char) (soup : HNode) (pageUrl : List Char) :
    List DesignerBrand :=
  let containers := findContentContainers soup
  if containers.isEmpty then
    let images := extractAllImages base soup
    let colors := extractAllPantoneColors soup
    images.map (fun u =>
      { brand_name := brandNameOrUnknown soup
        image_url := u
        local_image_path := []
        colors := colors
        page_url := pageUrl })
  else
    containers.filterMap (fun c => parseContainer base pageUrl c)

end Scraper

namespace Scraper

/-! ### Decimal rendering is injective

`_get_unique_filepath` builds suffixed names with Python's decimal rendering
of the counter, embedded as `Nat.repr`.  Distinct counters give distinct
names; the termination bound for the probe loop rests on that, so we prove
`Nat.repr` injective by relating it to a reference digit expansion. -/

/-- Decimal digit expansion, most significant first. -/
def decDigits (n : Nat) : List Char :=
  if n < 10 then [Nat.digitChar n]
  else decDigits (n / 10) ++ [Nat.digitChar (n % 10)]
  termination_by n
  decreasing_by exact Nat.div_lt_self (by omega) (by omega)

theorem toDigitsCore_eq_decDigits (f : Nat) :
    ∀ n acc, n < 10 ^ f → Nat.toDigitsCore 10 (f + 1) n acc = decDigits n ++ acc := by
  induction f with
  | zero =>
    intro n acc h
    have hn : n = 0 := by omega
    subst hn
    have h1 : Nat.toDigitsCore 10 (0 + 1) 0 acc = Nat.digitChar 0 :: acc := rfl
    rw [h1, decDigits]
    simp
  | succ f ih =>
    intro n acc h
    show Nat.toDigitsCore 10 (f + 2) n acc = decDigits n ++ acc
    rw [Nat.toDigitsCore]
    by_cases hdiv : n / 10 = 0
    · have hn : n < 10 := by omega
      simp only [hdiv, if_true]
      rw [decDigits]
      simp [hn, Nat.mod_eq_of_lt hn]
    · have hlt : n / 10 < 10 ^ f := by
        have : n < 10 ^ f * 10 := by
          have := pow_succ 10 f
          omega
        omega
      simp only [hdiv, if_false]
      have h10 : ¬ n < 10 := by omega
      have hstep : decDigits n = decDigits (n / 10) ++ [Nat.digitChar (n % 10)] := by
        rw [decDigits]
        simp [h10]
      rw [ih (n / 10) _ hlt, hstep]
      simp

/-- Numeric value of a decimal digit character. -/
def digitVal (c : Char) : Nat := c.toNat - 48

/-- Value of a most-significant-first digit string. -/
def decValue (l : List Char) : Nat := l.foldl (fun a c => a * 10 + digitVal c) 0

theorem digitVal_digitChar (d : Nat) (h : d < 10) :
    digitVal (Nat.digitChar d) = d := by
  interval_cases d <;> rfl

theorem decValue_decDigits (n : Nat) : decValue (decDigits n) = n := by
  induction n using Nat.strong_induction_on with
  | _ n ih =>
    by_cases h : n < 10
    · rw [decDigits]
      simp only [h, if_true]
      show 0 * 10 + digitVal (Nat.digitChar n) = n
      rw [digitVal_digitChar n h]
      omega
    · rw [decDigits]
      simp only [h, if_false]
      unfold decValue
      rw [List.foldl_append]
      have ihv := ih (n / 10) (Nat.div_lt_self (by omega) (by omega))
      unfold decValue at ihv
      rw [ihv]
      simp only [List.foldl]
      rw [digitVal_digitChar (n % 10) (Nat.mod_lt n (by omega))]
      omega

theorem natRepr_inj {m n : Nat} (h : Nat.repr m = Nat.repr n) : m = n := by
  have hd : Nat.toDigits 10 m = Nat.toDigits 10 n := congrArg String.data h
  have hm : Nat.toDigits 10 m = decDigits m := by
    have := toDigitsCore_eq_decDigits m m []
        (Nat.lt_pow_self (by norm_num) m)
    simpa [Nat.toDigits] using this
  have hn : Nat.toDigits 10 n = decDigits n := by
    have := toDigitsCore_eq_decDigits n n []
        (Nat.lt_pow_self (by norm_num) n)
    simpa [Nat.toDigits] using this
  have : decDigits m = decDigits n := by rw [← hm, ← hn, hd]
  calc m = decValue (decDigits m) := (decValue_decDigits m).symm
    _ = decValue (decDigits n) := by rw [this]
    _ = n := decValue_decDigits n

end Scraper

namespace Scraper

/-! ### The asset retriever (`ImageDownloader`) -/

/-- `f"{name}_{counter}{ext}"`: a suffixed filename candidate. -/
def suffixedName (stem ext : String) (k : Nat) : String :=
  stem ++ "_" ++ Nat.repr k ++ ext

theorem suffixedName_inj (stem ext : String) {a b : Nat}
    (h : suffixedName stem ext a = suffixedName stem ext b) : a = b := by
  unfold suffixedName at h
  have hd := congrArg String.data h
  simp only [String.data_append, List.append_assoc] at hd
  have h1 : (Nat.repr a).data ++ ext.data = (Nat.repr b).data ++ ext.data :=
    List.append_cancel_left (List.append_cancel_left hd)
  have hlen : (Nat.repr a).data.length = (Nat.repr b).data.length := by
    have := congrArg List.length h1
    simp only [List.length_append] at this
    omega
  have h2 : (Nat.repr a).data = (Nat.repr b).data :=
    (List.append_inj h1 hlen).1
  exact natRepr_inj (by
    cases hra : Nat.repr a with
    | mk da =>
      cases hrb : Nat.repr b with
      | mk db =>
        rw [hra, hrb] at h2
        simpa using congrArg String.mk h2)

/-- Some candidate among `stem_1.ext … stem_(n+1).ext` is not taken: the
`n + 1` candidates are pairwise distinct and the directory holds `n` names. -/
theorem exists_free_suffix (files : List String) (stem ext : String) :
    ∃ k, 1 ≤ k ∧ k ≤ files.length + 1 ∧ suffixedName stem ext k ∉ files := by
  by_contra hcon
  push_neg at hcon
  have hsub : (Finset.Icc 1 (files.length + 1)).image (suffixedName stem ext)
      ⊆ files.toFinset := by
    intro x hx
    rw [Finset.mem_image] at hx
    obtain ⟨k, hk, rfl⟩ := hx
    rw [Finset.mem_Icc] at hk
    exact List.mem_toFinset.mpr (hcon k hk.1 hk.2)
  have hcard := Finset.card_le_card hsub
  rw [Finset.card_image_of_injOn
    (fun a _ b _ hab => suffixedName_inj stem ext hab), Nat.card_Icc] at hcard
  have hfin := files.toFinset_card_le
  omega

/-- The probe loop of `_get_unique_filepath` (lines 101-108): try
`stem_c.ext`, `stem_(c+1).ext`, … until a name is unused.  The fuel is an
upper bound on the iterations; `exists_free_suffix` shows the caller's fuel
always suffices, so the fuel-exhausted base case is unreachable. -/
def probeSuffix (files : List String) (stem ext : String) : Nat → Nat → String
  | 0, c => suffixedName stem ext c
  | f + 1, c =>
    if suffixedName stem ext c ∈ files then probeSuffix files stem ext f (c + 1)
    else suffixedName stem ext c

theorem probeSuffix_spec (files : List String) (stem ext : String) :
    ∀ f c, (∃ k, c ≤ k ∧ k < c + f + 1 ∧ suffixedName stem ext k ∉ files) →
      ∃ k, probeSuffix files stem ext f c = suffixedName stem ext k ∧ c ≤ k ∧
        suffixedName stem ext k ∉ files ∧
        ∀ j, c ≤ j → j < k → suffixedName stem ext j ∈ files := by
  intro f
  induction f with
  | zero =>
    intro c hex
    obtain ⟨k, hk1, hk2, hk3⟩ := hex
    have hkc : k = c := by omega
    subst hkc
    exact ⟨k, rfl, le_refl k, hk3, fun j h1 h2 => absurd (lt_of_le_of_lt h1 h2) (lt_irrefl k)⟩
  | succ f ih =>
    intro c hex
    by_cases hc : suffixedName stem ext c ∈ files
    · have hex2 : ∃ k, c + 1 ≤ k ∧ k < (c + 1) + f + 1 ∧ suffixedName stem ext k ∉ files := by
        obtain ⟨k, hk1, hk2, hk3⟩ := hex
        refine ⟨k, ?_, by omega, hk3⟩
        rcases Nat.eq_or_lt_of_le hk1 with heq | hlt
        · exact absurd (heq ▸ hc) hk3
        · omega
      obtain ⟨k, hk1, hk2, hk3, hk4⟩ := ih (c + 1) hex2
      refine ⟨k, ?_, by omega, hk3, ?_⟩
      · show probeSuffix files stem ext (f + 1) c = suffixedName stem ext k
        rw [probeSuffix]
        simp [hc, hk1]
      · intro j hj1 hj2
        rcases Nat.eq_or_lt_of_le hj1 with heq | hlt
        · exact heq ▸ hc
        · exact hk4 j hlt hj2
    · refine ⟨c, ?_, le_refl c, hc, fun j h1 h2 => absurd (lt_of_le_of_lt h1 h2) (lt_irrefl c)⟩
      rw [probeSuffix]
      simp [hc]

/-- `os.path.splitext` on a bare filename: split at the last dot unless
every character before it is a dot. -/
def splitextL (s : List Char) : List Char × List Char :=
  if s.any (fun c => c == '.') then
    let ridx := s.reverse.indexOf '.'
    let i := s.length - 1 - ridx
    let pre := s.take i
    if pre.any (fun c => c != '.') then (pre, s.drop i) else (s, [])
  else (s, [])

def splitext (s : String) : String × String :=
  ((splitextL s.data).1.asString, (splitextL s.data).2.asString)

/-- `_get_unique_filepath`: the resolved name itself when unused, else the
first unused suffixed candidate.  `files` is the set of names present in the
download directory (`filepath.exists()` there is exactly membership), and
`files.length + 1` probes always reach a free candidate. -/
def getUniqueFilepath (files : List String) (filename : String) : String :=
  if filename ∈ files then
    probeSuffix files (splitext filename).1 (splitext filename).2
      (files.length + 1) 1
  else filename

theorem getUniqueFilepath_not_mem (files : List String) (filename : String) :
    getUniqueFilepath files filename ∉ files := by
  unfold getUniqueFilepath
  by_cases h : filename ∈ files
  · rw [if_pos h]
    obtain ⟨k, hk1, hk2, hk3⟩ :=
      exists_free_suffix files (splitext filename).1 (splitext filename).2
    obtain ⟨k2, heq, _, hfree, _⟩ :=
      probeSuffix_spec files (splitext filename).1 (splitext filename).2
        (files.length + 1) 1 ⟨k, hk1, by omega, hk3⟩
    rw [heq]
    exact hfree
  · rw [if_neg h]
    exact h

theorem getUniqueFilepath_of_not_mem (files : List String) (filename : String)
    (h : filename ∉ files) : getUniqueFilepath files filename = filename := by
  unfold getUniqueFilepath
  rw [if_neg h]

/-- `%XY` percent-escape decoding (`urllib.parse.unquote` on the ASCII
escapes the scraped URLs contain). -/
def hexValCh (c : Char) : Nat :=
  if c.isDigit then c.toNat - 48
  else if 'A' ≤ c && c ≤ 'F' then c.toNat - 55
  else c.toNat - 87

def percentDecode : List Char → List Char
  | [] => []
  | '%' :: a :: b :: rest =>
    if isHexCh a && isHexCh b then
      Char.ofNat (hexValCh a * 16 + hexValCh b) :: percentDecode rest
    else '%' :: percentDecode (a :: b :: rest)
  | c :: rest => c :: percentDecode rest

/-- `os.path.basename`: the part after the last `/`. -/
def pyBasename (p : List Char) : List Char :=
  (p.reverse.takeWhile (fun c => c != '/')).reverse

/-- `re.sub(r'[<>:"/\\|?*]', '_', filename)`. -/
def isIllegalCh (c : Char) : Bool :=
  c == '<' || c == '>' || c == ':' || c == '"' || c == '/' ||
  c == '\\' || c == '|' || c == '?' || c == '*'

def sanitizeFilename (s : List Char) : List Char :=
  s.map (fun c => if isIllegalCh c then '_' else c)

/-- `_get_filename_from_url`; `hash12` stands for
`hashlib.md5(url.encode()).hexdigest()[:12]`, an opaque digest. -/
def getFilenameFromUrl (hash12 : String → String) (url : String) : String :=
  let path := percentDecode (urlPathOf url.data)
  let filename := pyBasename path
  let filename :=
    if filename.isEmpty || !(filename.any (fun c => c == '.')) then
      ("image_" ++ hash12 url ++ ".jpg").data
    else filename
  (sanitizeFilename filename).asString

/-- The downloader's environment: the transport (`session.get`; `some body`
is an HTTP 200 response, `none` any failure — non-200 status, timeout,
transport error or exception, which the source treats identically) and the
URL digest. -/
structure DLEnv where
  fetch : String → Option String
  hash12 : String → String

/-- The downloader's mutable state: the two counters, the in-run history
dict, the names present in the download directory, and an instrumentation
trace of the URLs actually requested over the network. -/
structure DLState where
  downloaded_count : Nat
  failed_count : Nat
  history : List (String × String)
  files : List String
  netCalls : List String

/-- Python dict lookup on an insertion-ordered association list. -/
def dictGet (m : List (String × String)) (k : String) : Option String :=
  (m.find? (fun p => p.1 == k)).map (fun p => p.2)

/-- `_download_single` (one fetch task, lines 127-182).  Concurrency note:
the semaphore bounds parallelism but every history/counter access is
modeled as the per-task atomic step sequence the source performs; the batch
is embedded as these steps in input order. -/
def downloadSingle (env : DLEnv) (st : DLState) (url : String) :
    DLState × (String × Option String) :=
  match dictGet st.history url with
  | some p => (st, (url, some p))
  | none =>
    let filename := getFilenameFromUrl env.hash12 url
    let filepath := getUniqueFilepath st.files filename
    if filepath ∈ st.files then
      -- the "already downloaded" fast path (line 137): record and skip
      ({ st with history := st.history ++ [(url, filepath)] }, (url, some filepath))
    else
      let st1 := { st with netCalls := st.netCalls ++ [url] }
      match env.fetch url with
      | some _content =>
        ({ st1 with
            files := st1.files ++ [filepath]
            downloaded_count := st1.downloaded_count + 1
            history := st1.history ++ [(url, filepath)] }, (url, some filepath))
      | none =>
        ({ st1 with failed_count := st1.failed_count + 1 }, (url, none))

/-- The gathered per-task results, in task order. -/
def runBatch (env : DLEnv) (st : DLState) : List String →
    DLState × List (String × Option String)
  | [] => (st, [])
  | u :: rest =>
    let r := downloadSingle env st u
    let rs := runBatch env r.1 rest
    (rs.1, r.2 :: rs.2)

/-- Python dict assignment `m[k] = v`: overwrite in place or append. -/
def dictInsert (m : List (String × Option String)) (k : String)
    (v : Option String) : List (String × Option String) :=
  if m.any (fun p => p.1 == k) then
    m.map (fun p => if p.1 == k then (k, v) else p)
  else m ++ [(k, v)]

/-- `result_map` built from the gathered results (lines 218-220). -/
def buildResultMap (results : List (String × Option String)) :
    List (String × Option String) :=
  results.foldl (fun m r => dictInsert m r.1 r.2) []

/-- `download_all_async`. -/
def downloadAllAsync (env : DLEnv) (st : DLState) (urls : List String) :
    DLState × List (String × Option String) :=
  if urls.isEmpty then (st, [])
  else
    let r := runBatch env st urls
    (r.1, buildResultMap r.2)

/-- `get_download_stats`: `(downloaded, failed, total)`. -/
def getDownloadStats (st : DLState) : Nat × Nat × Nat :=
  (st.downloaded_count, st.failed_count, st.downloaded_count + st.failed_count)

/-- `reset_stats`. -/
def resetStats (st : DLState) : DLState :=
  { st with downloaded_count := 0, failed_count := 0 }

end Scraper

namespace Scraper

/-! ### Properties of first-seen deduplication -/

theorem fsdAux_sublist {α : Type} [DecidableEq α] :
    ∀ (l seen : List α), List.Sublist (fsdAux seen l) l := by
  intro l
  induction l with
  | nil => intro seen; simp [fsdAux]
  | cons x xs ih =>
    intro seen
    rw [fsdAux]
    by_cases h : x ∈ seen
    · rw [if_pos h]
      exact (ih seen).trans (List.sublist_cons_self x xs)
    · rw [if_neg h]
      exact (ih (seen ++ [x])).cons₂ x

theorem fsdAux_mem_not_seen {α : Type} [DecidableEq α] :
    ∀ (l seen : List α) (x : α), x ∈ fsdAux seen l → x ∉ seen := by
  intro l
  induction l with
  | nil => intro seen x hx; simp [fsdAux] at hx
  | cons y ys ih =>
    intro seen x hx
    rw [fsdAux] at hx
    by_cases h : y ∈ seen
    · rw [if_pos h] at hx
      exact ih seen x hx
    · rw [if_neg h] at hx
      rcases List.mem_cons.mp hx with heq | hmem
      · exact heq ▸ h
      · intro hxs
        exact ih (seen ++ [y]) x hmem (List.mem_append_left [y] hxs)

theorem fsdAux_nodup {α : Type} [DecidableEq α] :
    ∀ (l seen : List α), (fsdAux seen l).Nodup := by
  intro l
  induction l with
  | nil => intro seen; simp [fsdAux]
  | cons y ys ih =>
    intro seen
    rw [fsdAux]
    by_cases h : y ∈ seen
    · rw [if_pos h]; exact ih seen
    · rw [if_neg h]
      refine List.nodup_cons.mpr ⟨?_, ih (seen ++ [y])⟩
      intro hy
      exact fsdAux_mem_not_seen ys (seen ++ [y]) y hy
        (List.mem_append_right seen (List.mem_singleton.mpr rfl))

theorem fsDedup_nodup {α : Type} [DecidableEq α] (l : List α) :
    (fsDedup l).Nodup := fsdAux_nodup l []

theorem fsDedup_sublist {α : Type} [DecidableEq α] (l : List α) :
    List.Sublist (fsDedup l) l := fsdAux_sublist l []

theorem fsdAux_length_le {α : Type} [DecidableEq α] :
    ∀ (l seen : List α), (fsdAux seen l).length ≤ l.length :=
  fun l seen => (fsdAux_sublist l seen).length_le

theorem fsdAux_length_lt {α : Type} [DecidableEq α] :
    ∀ (l seen : List α) (a : α), a ∈ seen → a ∈ l →
      (fsdAux seen l).length < l.length := by
  intro l
  induction l with
  | nil => intro seen a _ ha; simp at ha
  | cons y ys ih =>
    intro seen a hseen hmem
    rw [fsdAux]
    by_cases h : y ∈ seen
    · rw [if_pos h]
      exact lt_of_le_of_lt (fsdAux_length_le ys seen) (by simp)
    · rw [if_neg h]
      have hay : a ≠ y := fun heq => h (heq ▸ hseen)
      have hays : a ∈ ys := by
        rcases List.mem_cons.mp hmem with heq | hm
        · exact absurd heq hay
        · exact hm
      have := ih (seen ++ [y]) a (List.mem_append_left [y] hseen) hays
      simpa using Nat.succ_lt_succ this

theorem fsdAux_length_lt_of_dup {α : Type} [DecidableEq α] :
    ∀ (l seen : List α), ¬ l.Nodup → (fsdAux seen l).length < l.length := by
  intro l
  induction l with
  | nil => intro seen h; exact absurd List.nodup_nil h
  | cons y ys ih =>
    intro seen h
    have hsplit : y ∈ ys ∨ ¬ ys.Nodup := by
      by_contra hc
      push_neg at hc
      exact h (List.nodup_cons.mpr ⟨hc.1, hc.2⟩)
    rw [fsdAux]
    by_cases hm : y ∈ seen
    · rw [if_pos hm]
      exact lt_of_le_of_lt (fsdAux_length_le ys seen) (by simp)
    · rw [if_neg hm]
      rcases hsplit with hy | hnd
      · have := fsdAux_length_lt ys (seen ++ [y]) y
          (List.mem_append_right seen (List.mem_singleton.mpr rfl)) hy
        simpa using Nat.succ_lt_succ this
      · simpa using Nat.succ_lt_succ (ih (seen ++ [y]) hnd)

theorem fsdAux_eq_self {α : Type} [DecidableEq α] :
    ∀ (l seen : List α), l.Nodup → (∀ x ∈ l, x ∉ seen) → fsdAux seen l = l := by
  intro l
  induction l with
  | nil => intro seen _ _; rfl
  | cons y ys ih =>
    intro seen hnd hdis
    rw [fsdAux, if_neg (hdis y (List.mem_cons_self y ys))]
    congr 1
    refine ih (seen ++ [y]) (List.nodup_cons.mp hnd).2 ?_
    intro x hx hmem
    rcases List.mem_append.mp hmem with hs | hy
    · exact hdis x (List.mem_cons_of_mem y hx) hs
    · exact (List.nodup_cons.mp hnd).1 (List.mem_singleton.mp hy ▸ hx)

theorem fsDedup_eq_self {α : Type} [DecidableEq α] (l : List α) (h : l.Nodup) :
    fsDedup l = l :=
  fsdAux_eq_self l [] h (fun x _ hx => by simp at hx)

theorem fsDedup_length_lt {α : Type} [DecidableEq α] (l : List α)
    (h : ¬ l.Nodup) : (fsDedup l).length < l.length :=
  fsdAux_length_lt_of_dup l [] h

end Scraper





namespace Scraper

/-! ### Properties of the retriever's state machine -/

theorem dictGet_append_ne (h : List (String × String)) (u : String)
    (p : String × String) (hne : p.1 ≠ u) :
    dictGet (h ++ [p]) u = dictGet h u := by
  unfold dictGet
  rw [List.find?_append]
  cases hfind : h.find? (fun q => q.1 == u) with
  | some q => simp
  | none =>
    simp only [Option.none_or]
    have : (fun q : String × String => q.1 == u) p = false := by
      simp [hne]
    simp [List.find?, this]

/-- `downloadSingle` on a URL not yet in history: the existence fast path is
unreachable (the resolved unique path never names an existing file), so the
task always issues the network request and the outcome follows the
transport. -/
theorem downloadSingle_fresh (env : DLEnv) (st : DLState) (u : String)
    (hh : dictGet st.history u = none) :
    downloadSingle env st u =
      (match env.fetch u with
       | some _ =>
         ({ st with
             netCalls := st.netCalls ++ [u]
             files := st.files ++
               [getUniqueFilepath st.files (getFilenameFromUrl env.hash12 u)]
             downloaded_count := st.downloaded_count + 1
             history := st.history ++
               [(u, getUniqueFilepath st.files (getFilenameFromUrl env.hash12 u))] },
          (u, some (getUniqueFilepath st.files (getFilenameFromUrl env.hash12 u))))
       | none =>
         ({ st with
             netCalls := st.netCalls ++ [u]
             failed_count := st.failed_count + 1 }, (u, none))) := by
  unfold downloadSingle
  rw [hh]
  rw [if_neg (getUniqueFilepath_not_mem st.files (getFilenameFromUrl env.hash12 u))]

/-- `downloadSingle` on a URL already in history returns the cached path and
leaves the state (the network-call trace included) untouched. -/
theorem downloadSingle_cached (env : DLEnv) (st : DLState) (u p : String)
    (hh : dictGet st.history u = some p) :
    downloadSingle env st u = (st, (u, some p)) := by
  unfold downloadSingle
  rw [hh]

/-- Every task reports the URL it was given. -/
theorem downloadSingle_fst (env : DLEnv) (st : DLState) (u : String) :
    (downloadSingle env st u).2.1 = u := by
  unfold downloadSingle
  cases hh : dictGet st.history u with
  | some p => rfl
  | none =>
    dsimp only
    split
    · rfl
    · cases env.fetch u <;> rfl

/-- The per-task steps only ever append to the history dict. -/
theorem downloadSingle_history (env : DLEnv) (st : DLState) (u : String) :
    (downloadSingle env st u).1.history = st.history ∨
    ∃ p, (downloadSingle env st u).1.history = st.history ++ [(u, p)] := by
  unfold downloadSingle
  cases hh : dictGet st.history u with
  | some p => left; rfl
  | none =>
    dsimp only
    split
    · right; exact ⟨_, rfl⟩
    · cases env.fetch u with
      | some c => right; exact ⟨_, rfl⟩
      | none => left; rfl

theorem runBatch_fst (env : DLEnv) :
    ∀ (urls : List String) (st : DLState),
      (runBatch env st urls).2.map Prod.fst = urls := by
  intro urls
  induction urls with
  | nil => intro st; rfl
  | cons u rest ih =>
    intro st
    show ((downloadSingle env st u).2 ::
        (runBatch env (downloadSingle env st u).1 rest).2).map Prod.fst = u :: rest
    rw [List.map_cons, downloadSingle_fst, ih]

end Scraper

namespace Scraper

theorem downloadSingle_fresh_fail (env : DLEnv) (st : DLState) (u : String)
    (hh : dictGet st.history u = none) (hf : env.fetch u = none) :
    downloadSingle env st u =
      ({ st with netCalls := st.netCalls ++ [u],
                 failed_count := st.failed_count + 1 }, (u, none)) := by
  have hstep := downloadSingle_fresh env st u hh
  rw [hf] at hstep
  exact hstep

theorem downloadSingle_fresh_succ (env : DLEnv) (st : DLState) (u body : String)
    (hh : dictGet st.history u = none) (hf : env.fetch u = some body) :
    downloadSingle env st u =
      ({ st with
          netCalls := st.netCalls ++ [u],
          files := st.files ++
            [getUniqueFilepath st.files (getFilenameFromUrl env.hash12 u)],
          downloaded_count := st.downloaded_count + 1,
          history := st.history ++
            [(u, getUniqueFilepath st.files (getFilenameFromUrl env.hash12 u))] },
       (u, some (getUniqueFilepath st.files (getFilenameFromUrl env.hash12 u)))) := by
  have hstep := downloadSingle_fresh env st u hh
  rw [hf] at hstep
  exact hstep

/-- Batch run over fresh, pairwise-distinct URLs: the counters advance by
the per-outcome tallies, every URL is requested exactly once over the
network, and each reported outcome mirrors its transport result. -/
theorem runBatch_stats (env : DLEnv) :
    ∀ (urls : List String) (st : DLState),
      urls.Nodup → (∀ u ∈ urls, dictGet st.history u = none) →
      ((runBatch env st urls).1.downloaded_count =
          st.downloaded_count +
            (urls.filter (fun u => (env.fetch u).isSome)).length) ∧
      ((runBatch env st urls).1.failed_count =
          st.failed_count +
            (urls.filter (fun u => (env.fetch u).isNone)).length) ∧
      ((runBatch env st urls).1.netCalls = st.netCalls ++ urls) ∧
      (∀ u op, (u, op) ∈ (runBatch env st urls).2 →
        ((env.fetch u = none → op = none) ∧
         ((env.fetch u).isSome → ∃ p, op = some p))) := by
  intro urls
  induction urls with
  | nil =>
    intro st _ _
    exact ⟨by simp [runBatch], by simp [runBatch], by simp [runBatch],
      fun u op hm => by simp [runBatch] at hm⟩
  | cons u rest ih =>
    intro st hnd hfresh
    have hndr := (List.nodup_cons.mp hnd).2
    have hnotin := (List.nodup_cons.mp hnd).1
    have hfreshu := hfresh u (List.mem_cons_self u rest)
    have hfresh2 : ∀ v ∈ rest,
        dictGet (downloadSingle env st u).1.history v = none := by
      intro v hv
      have hne : u ≠ v := fun heq => hnotin (heq ▸ hv)
      rcases downloadSingle_history env st u with hsame | ⟨p, happ⟩
      · rw [hsame]; exact hfresh v (List.mem_cons_of_mem u hv)
      · rw [happ, dictGet_append_ne st.history v (u, p) hne]
        exact hfresh v (List.mem_cons_of_mem u hv)
    obtain ⟨ih1, ih2, ih3, ih4⟩ := ih (downloadSingle env st u).1 hndr hfresh2
    have hruns : (runBatch env st (u :: rest)).1 =
        (runBatch env (downloadSingle env st u).1 rest).1 := rfl
    have hrunr : (runBatch env st (u :: rest)).2 =
        (downloadSingle env st u).2 ::
          (runBatch env (downloadSingle env st u).1 rest).2 := rfl
    cases hfetch : env.fetch u with
    | none =>
      have hstep := downloadSingle_fresh_fail env st u hfreshu hfetch
      refine ⟨?_, ?_, ?_, ?_⟩
      · rw [hruns, ih1, hstep]
        simp [List.filter_cons, hfetch]
      · rw [hruns, ih2, hstep]
        simp [List.filter_cons, hfetch]
        omega
      · rw [hruns, ih3, hstep]
        simp
      · intro v op hm
        rw [hrunr] at hm
        rcases List.mem_cons.mp hm with heq | hmem
        · rw [hstep, Prod.mk.injEq] at heq
          obtain ⟨rfl, rfl⟩ := heq
          exact ⟨fun _ => rfl, fun hs => by rw [hfetch] at hs; simp at hs⟩
        · exact ih4 v op hmem
    | some body =>
      have hstep := downloadSingle_fresh_succ env st u body hfreshu hfetch
      refine ⟨?_, ?_, ?_, ?_⟩
      · rw [hruns, ih1, hstep]
        simp [List.filter_cons, hfetch]
        omega
      · rw [hruns, ih2, hstep]
        simp [List.filter_cons, hfetch]
      · rw [hruns, ih3, hstep]
        simp
      · intro v op hm
        rw [hrunr] at hm
        rcases List.mem_cons.mp hm with heq | hmem
        · rw [hstep, Prod.mk.injEq] at heq
          obtain ⟨rfl, rfl⟩ := heq
          refine ⟨fun hn => ?_, fun _ => ⟨_, rfl⟩⟩
          rw [hfetch] at hn
          simp at hn
        · exact ih4 v op hmem

end Scraper

namespace Scraper

theorem dictInsert_of_not_mem (m : List (String × Option String)) (k : String)
    (v : Option String) (h : k ∉ m.map Prod.fst) :
    dictInsert m k v = m ++ [(k, v)] := by
  unfold dictInsert
  rw [if_neg]
  intro hc
  rw [List.any_eq_true] at hc
  obtain ⟨p, hp, hpk⟩ := hc
  rw [beq_iff_eq] at hpk
  exact h (List.mem_map.mpr ⟨p, hp, hpk⟩)

theorem dictInsert_keys (m : List (String × Option String)) (k : String)
    (v : Option String) :
    (dictInsert m k v).map Prod.fst =
      if k ∈ m.map Prod.fst then m.map Prod.fst else m.map Prod.fst ++ [k] := by
  by_cases h : k ∈ m.map Prod.fst
  · rw [if_pos h]
    unfold dictInsert
    rw [if_pos]
    · rw [List.map_map]
      refine List.map_congr_left ?_
      intro p hp
      show ((if p.1 == k then (k, v) else p) : String × Option String).1 = p.1
      by_cases hpk : p.1 = k
      · simp [hpk]
      · simp [hpk]
    · rw [List.any_eq_true]
      obtain ⟨p, hp, hpk⟩ := List.mem_map.mp h
      exact ⟨p, hp, beq_iff_eq.mpr hpk⟩
  · rw [if_neg h, dictInsert_of_not_mem m k v h, List.map_append]
    rfl

theorem buildRM_keys_aux :
    ∀ (rs : List (String × Option String)) (m : List (String × Option String)),
      ((rs.foldl (fun m r => dictInsert m r.1 r.2) m).map Prod.fst) =
        m.map Prod.fst ++ fsdAux (m.map Prod.fst) (rs.map Prod.fst) := by
  intro rs
  induction rs with
  | nil => intro m; simp [fsdAux]
  | cons r rs ih =>
    intro m
    rw [List.foldl_cons, List.map_cons, fsdAux, ih (dictInsert m r.1 r.2),
      dictInsert_keys]
    by_cases h : r.1 ∈ m.map Prod.fst
    · rw [if_pos h, if_pos h]
    · rw [if_neg h, if_neg h]
      simp

/-- The keys of the result map are the batch's URLs deduplicated in
first-seen order. -/
theorem buildResultMap_keys (rs : List (String × Option String)) :
    (buildResultMap rs).map Prod.fst = fsDedup (rs.map Prod.fst) := by
  unfold buildResultMap fsDedup
  rw [buildRM_keys_aux rs []]
  rfl

theorem buildRM_eq_self_aux :
    ∀ (rs : List (String × Option String)) (m : List (String × Option String)),
      (∀ r ∈ rs, r.1 ∉ m.map Prod.fst) → (rs.map Prod.fst).Nodup →
      rs.foldl (fun m r => dictInsert m r.1 r.2) m = m ++ rs := by
  intro rs
  induction rs with
  | nil => intro m _ _; simp
  | cons r rs ih =>
    intro m hdis hnd
    rw [List.foldl_cons,
      dictInsert_of_not_mem m r.1 r.2 (hdis r (List.mem_cons_self r rs))]
    have hnd2 := (List.nodup_cons.mp (List.map_cons Prod.fst r rs ▸ hnd)).2
    have hhead := (List.nodup_cons.mp (List.map_cons Prod.fst r rs ▸ hnd)).1
    rw [ih (m ++ [(r.1, r.2)]) ?_ hnd2]
    · simp
    · intro q hq hqm
      rw [List.map_append] at hqm
      rcases List.mem_append.mp hqm with hm1 | hm2
      · exact hdis q (List.mem_cons_of_mem r hq) hm1
      · have : q.1 = r.1 := by simpa using hm2
        exact hhead (this ▸ List.mem_map_of_mem Prod.fst hq)

/-- With pairwise-distinct URLs the result map is the gathered list itself. -/
theorem buildResultMap_eq_self (rs : List (String × Option String))
    (h : (rs.map Prod.fst).Nodup) : buildResultMap rs = rs := by
  unfold buildResultMap
  rw [buildRM_eq_self_aux rs [] (fun r _ hr => by simp at hr) h]
  rfl

end Scraper

namespace Scraper

/-! ### Concrete inputs used by the claim theorems -/

/-- The parser's default base URL. -/
def defaultBase : List Char := "https://www.popfashioninfo.com".data

/-- A document matching no structural selector, with one content image and
one recognizable color span, and nothing a brand-name heuristic could use. -/
def docTier2 : HNode :=
  .elem "[document]" [] [
    .elem "html" [] [
      .elem "body" [] [
        .elem "img" [("src", "https://cdn.example.com/looks/runway-2024.jpg")] [],
        .text "PANTONE 19-4052 Classic Blue"]]]

/-- A bare Tier-1 container: a `.product-item` holding only an image with no
brand-name material. -/
def bareContainer : HNode :=
  .elem "div" [("class", "product-item")] [
    .elem "img" [("src", "https://cdn.example.com/looks/shot-1.jpg")] []]

/-- A document whose only content is `bareContainer`. -/
def docTier1 : HNode := .elem "[document]" [] [bareContainer]

/-- A transport that always answers HTTP 200 with a body, and a fixed
digest. -/
def envC1 : DLEnv :=
  { fetch := fun _ => some "IMGDATA", hash12 := fun _ => "d41d8cd98f00" }

/-- Fresh-run state whose download directory already holds `photo.jpg`. -/
def stC1 : DLState :=
  { downloaded_count := 0, failed_count := 0, history := [],
    files := ["photo.jpg"], netCalls := [] }

theorem isValidImage_eq_not_excl (url : List Char) :
    isValidImage url = !exclMatch (lowerL url) := by
  unfold isValidImage
  by_cases h : exclMatch (lowerL url) = true
  · simp [h]
  · rw [Bool.not_eq_true] at h
    simp [h]

end Scraper

namespace Scraper

/-- C7: the media validity filter is a denylist: a URL is classified as
excluded exactly when its lowercased form matches one of the ten fixed
exclusion patterns (`/icon`, `/logo`, `\.ico$`, `/placeholder`, `/loading`,
`data:image`, `/avatar`, `/thumb`, `_small`, `_mini`), and every URL
matching none of them is valid regardless of its extension; in particular
`.../icon_small.png` is excluded and `.../runway-2024.jpg` is included. -/
theorem isValidImage_denylist :
    (∀ url : List Char, isValidImage url = false ↔
      (containsSub (lowerL url) "/icon".data = true ∨
       containsSub (lowerL url) "/logo".data = true ∨
       endsWithL (lowerL url) ".ico".data = true ∨
       containsSub (lowerL url) "/placeholder".data = true ∨
       containsSub (lowerL url) "/loading".data = true ∨
       containsSub (lowerL url) "data:image".data = true ∨
       containsSub (lowerL url) "/avatar".data = true ∨
       containsSub (lowerL url) "/thumb".data = true ∨
       containsSub (lowerL url) "_small".data = true ∨
       containsSub (lowerL url) "_mini".data = true)) ∧
    isValidImage "https://cdn.example.com/assets/icon_small.png".data = false ∧
    isValidImage "https://cdn.example.com/2024/runway-2024.jpg".data = true := by
  refine ⟨?_, by decide, by decide⟩
  intro url
  rw [isValidImage_eq_not_excl, Bool.not_eq_false']
  unfold exclMatch
  simp only [Bool.or_eq_true, or_assoc]

end Scraper

namespace Scraper

/-- C8: `_get_unique_filepath` returns the name unchanged when no file
exists at it, and otherwise the first `stem_k.ext` (k = 1, 2, …) naming no
existing file; the returned path never names an existing file, and three
sequential invocations for `photo.jpg` against a directory populated between
calls yield `photo.jpg`, `photo_1.jpg`, `photo_2.jpg`. -/
theorem resolveUniquePath_spec :
    (∀ (files : List String) (filename : String), filename ∉ files →
        getUniqueFilepath files filename = filename) ∧
    (∀ (files : List String) (filename : String), filename ∈ files →
        ∃ k, 1 ≤ k ∧
          getUniqueFilepath files filename =
            suffixedName (splitext filename).1 (splitext filename).2 k ∧
          suffixedName (splitext filename).1 (splitext filename).2 k ∉ files ∧
          (∀ j, 1 ≤ j → j < k →
            suffixedName (splitext filename).1 (splitext filename).2 j ∈ files)) ∧
    (∀ (files : List String) (filename : String),
        getUniqueFilepath files filename ∉ files) ∧
    (getUniqueFilepath [] "photo.jpg" = "photo.jpg" ∧
     getUniqueFilepath ["photo.jpg"] "photo.jpg" = "photo_1.jpg" ∧
     getUniqueFilepath ["photo.jpg", "photo_1.jpg"] "photo.jpg" = "photo_2.jpg") := by
  refine ⟨getUniqueFilepath_of_not_mem, ?_, getUniqueFilepath_not_mem,
    by decide, by decide, by decide⟩
  intro files filename h
  obtain ⟨k0, hk1, hk2, hk3⟩ :=
    exists_free_suffix files (splitext filename).1 (splitext filename).2
  obtain ⟨k, heq, hge, hfree, hmin⟩ :=
    probeSuffix_spec files (splitext filename).1 (splitext filename).2
      (files.length + 1) 1 ⟨k0, hk1, by omega, hk3⟩
  refine ⟨k, hge, ?_, hfree, hmin⟩
  unfold getUniqueFilepath
  rw [if_pos h]
  exact heq

/-- C8 witness: the parts with hypotheses applied at concrete inputs. -/
theorem resolveUniquePath_spec_witness :
    getUniqueFilepath ["a.png"] "b.png" = "b.png" ∧
    (∃ k, 1 ≤ k ∧
      getUniqueFilepath ["photo.jpg"] "photo.jpg" =
        suffixedName (splitext "photo.jpg").1 (splitext "photo.jpg").2 k ∧
      suffixedName (splitext "photo.jpg").1 (splitext "photo.jpg").2 k ∉
        ["photo.jpg"] ∧
      (∀ j, 1 ≤ j → j < k →
        suffixedName (splitext "photo.jpg").1 (splitext "photo.jpg").2 j ∈
          ["photo.jpg"])) :=
  ⟨resolveUniquePath_spec.1 ["a.png"] "b.png" (by decide),
   resolveUniquePath_spec.2.1 ["photo.jpg"] "photo.jpg" (by decide)⟩

end Scraper

namespace Scraper

/-- C1: the claim describes the intended resume fast path (module docstring
"断点续传", comment at downloader.py line 136), but the code computes the
unique path first, and that path never names an existing file, so the
existence check never fires: with `photo.jpg` already on disk and an empty
in-run history, fetching `https://example.com/photo.jpg` issues a network
request and writes `photo_1.jpg` instead of skipping and returning
`photo.jpg`. -/
theorem alreadyPresent_fast_path_dead :
    (∀ (files : List String) (fn : String), getUniqueFilepath files fn ∉ files) ∧
    (downloadSingle envC1 stC1 "https://example.com/photo.jpg").1.netCalls =
      ["https://example.com/photo.jpg"] ∧
    (downloadSingle envC1 stC1 "https://example.com/photo.jpg").2 =
      ("https://example.com/photo.jpg", some "photo_1.jpg") ∧
    (downloadSingle envC1 stC1 "https://example.com/photo.jpg").1.files =
      ["photo.jpg", "photo_1.jpg"] :=
  ⟨getUniqueFilepath_not_mem, by decide, by decide, by decide⟩

end Scraper

namespace Scraper

/-- C4 counterexample: the claim quantifies over every text containing the
span, but a text in which the span is followed by further lowercase letters
makes the greedy name capture absorb them, so the produced pair for code
19-4052 is ("19-4052", "Classic Bluez"), not ("19-4052", "Classic Blue"). -/
theorem tcx_span_counterexample :
    containsSub "PANTONE 19-4052 TCX Classic Bluez".data
      "PANTONE 19-4052 TCX Classic Blue".data = true ∧
    rulesetOnText "PANTONE 19-4052 TCX Classic Bluez".data =
      [mkPantoneColor "19-4052".data "Classic Bluez".data none] ∧
    mkPantoneColor "19-4052".data "Classic Bluez".data none ≠
      mkPantoneColor "19-4052".data "Classic Blue".data none :=
  ⟨by decide, by decide, by decide⟩

/-- C4 amended: on the text `PANTONE 19-4052 TCX Classic Blue` itself (the
span ending at a word boundary, no surrounding matches) one rule-set
invocation yields exactly the pair ("19-4052", "Classic Blue"): the first
pattern family consumes TCX without absorbing it into the name, and the
second family's overlapping match (which does absorb TCX) is discarded by
the per-scope dedup, so no second pair for the code is produced. -/
theorem tcx_span_spec :
    rulesetOnText "PANTONE 19-4052 TCX Classic Blue".data =
      [mkPantoneColor "19-4052".data "Classic Blue".data none] ∧
    (findAllFrom pantonePat1
        (normalizeWs "PANTONE 19-4052 TCX Classic Blue".data)).map
      (fun g => (groupVal g 1, groupVal g 2)) =
      [("19-4052".data, "Classic Blue".data)] ∧
    (findAllFrom pantonePat2
        (normalizeWs "PANTONE 19-4052 TCX Classic Blue".data)).map
      (fun g => (groupVal g 1, groupVal g 2)) =
      [("19-4052".data, "TCX Classic".data)] :=
  ⟨by decide, by decide, by decide⟩

end Scraper

namespace Scraper

/-- The C5 counterexample text: it contains both required spans, yet an
earlier `PANTONE 11-1111 Xy PANTONE` match of the second family swallows the
label of the code-first span, and a trailing digit makes the lookahead
reject the name-first span. -/
def textC5bad : List Char :=
  "PANTONE 11-1111 Xy PANTONE 19-4052 Classic Blue PANTONE Classic Blue 19-40521".data

/-- The two orderings side by side, as the claim intends. -/
def textC5good : List Char :=
  "PANTONE 19-4052 Classic Blue PANTONE Classic Blue 19-4052".data

/-- C5 counterexample: the claim quantifies over every text containing both
orderings, but on `textC5bad` — which contains both spans — the invocation
produces no color with code 19-4052 at all (the only color is 11-1111), so
"exactly one ColorIdentifier with code 19-4052" fails. -/
theorem dedup_priority_counterexample :
    containsSub textC5bad "PANTONE 19-4052 Classic Blue".data = true ∧
    containsSub textC5bad "PANTONE Classic Blue 19-4052".data = true ∧
    rulesetOnText textC5bad =
      [mkPantoneColor "11-1111".data "Xy PANTONE".data none] ∧
    (rulesetOnText textC5bad).all
      (fun c => !(c.color_code == "19-4052".data)) = true :=
  ⟨by decide, by decide, by decide, by decide⟩

/-- C5 amended: on the text consisting of the two orderings themselves,
exactly one color with code 19-4052 is produced and it is the capture of the
second pattern family (the earlier-priority family to match this text: the
qualifier family matches nothing here); the third family does match the
name-first span later, and its pair for the already-seen code is discarded
by the per-scope dedup.  For texts merely containing both spans, surrounding
context can suppress or divert the matches. -/
theorem dedup_priority_spec :
    rulesetOnText textC5good =
      [mkPantoneColor "19-4052".data "Classic Blue".data none] ∧
    (findAllFrom pantonePat1 (normalizeWs textC5good)) = [] ∧
    (findAllFrom pantonePat2 (normalizeWs textC5good)).map
      (fun g => (groupVal g 1, groupVal g 2)) =
      [("19-4052".data, "Classic Blue".data)] ∧
    (findAllFrom pantonePat3 (normalizeWs textC5good)).map
      (fun g => (groupVal g 1, groupVal g 2)) =
      [("Classic Blue".data, "19-4052".data)] :=
  ⟨by decide, by decide, by decide, by decide⟩

end Scraper

namespace Scraper

theorem firstNonemptyL_eq_nil {α : Type} :
    ∀ ls : List (List α), firstNonemptyL ls = [] ↔ ∀ l ∈ ls, l = [] := by
  intro ls
  induction ls with
  | nil => simp [firstNonemptyL]
  | cons l ls ih =>
    rw [firstNonemptyL]
    by_cases h : l.isEmpty
    · rw [if_pos h]
      have hl : l = [] := List.isEmpty_iff.mp h
      subst hl
      simp [ih]
    · rw [if_neg h]
      have hl : l ≠ [] := fun heq => h (by simp [heq])
      constructor
      · intro heq; exact absurd heq hl
      · intro hall; exact absurd (hall l (List.mem_cons_self l ls)) hl

/-- C2 counterexample: on a document with no containers and nothing any
brand-name heuristic can use, the Tier-2 record builder fills in the string
"Unknown", not the "Unknown Brand" sentinel the claim names for both paths. -/
theorem tier2_sentinel_counterexample :
    extractBrandName docTier2 = none ∧
    (parseDesignerPage defaultBase docTier2 []).map (fun b => b.brand_name) =
      [unknownLit] ∧
    unknownLit ≠ unknownBrandLit :=
  ⟨by decide, by decide, by decide⟩

/-- C2 amended: when no brand-name heuristic yields a name, a Tier-1 record
carries the sentinel "Unknown Brand", while a Tier-2 record carries the
shorter fallback "Unknown". -/
theorem brand_sentinel_spec :
    (∀ c : HNode, containerHeadingName c = none → containerDataName c = none →
        containerAltName c = none →
        extractBrandNameFromContainer c = unknownBrandLit) ∧
    (∀ (base pageUrl : List Char) (soup : HNode) (b : DesignerBrand),
        findContentContainers soup = [] →
        (extractBrandName soup = none ∨ extractBrandName soup = some []) →
        b ∈ parseDesignerPage base soup pageUrl → b.brand_name = unknownLit) := by
  constructor
  · intro c h1 h2 h3
    unfold extractBrandNameFromContainer
    rw [h1, h2, h3]
  · intro base pageUrl soup b h1 h2 hb
    unfold parseDesignerPage at hb
    rw [h1] at hb
    simp only [List.isEmpty_nil, if_true] at hb
    obtain ⟨u, _, rfl⟩ := List.mem_map.mp hb
    show brandNameOrUnknown soup = unknownLit
    unfold brandNameOrUnknown
    rcases h2 with h | h
    · rw [h]
    · rw [h]
      rfl

/-- C2 amended witness: the Tier-1 part at a bare container, the Tier-2 part
at the heuristic-free document. -/
theorem brand_sentinel_spec_witness :
    extractBrandNameFromContainer bareContainer = unknownBrandLit ∧
    ({ brand_name := unknownLit,
       image_url := "https://cdn.example.com/looks/runway-2024.jpg".data,
       local_image_path := [],
       colors := [mkPantoneColor "19-4052".data "Classic Blue".data none],
       page_url := [] } : DesignerBrand).brand_name = unknownLit :=
  ⟨brand_sentinel_spec.1 bareContainer (by decide) (by decide) (by decide),
   brand_sentinel_spec.2 defaultBase [] docTier2 _ (by rfl) (Or.inl (by decide))
     (by decide)⟩

end Scraper

namespace Scraper

/-- C6: Tier 2 runs exactly when every structural selector yields zero
containers; it then emits one record per media URL surviving the validity
filter, deduplicated by exact URL in first-seen order, every record carrying
the same shared document-level color list; and on a document with no
structural match, one media element and one recognizable color pattern it
emits exactly one record carrying that color. -/
theorem tier2_fallback_spec :
    (∀ soup : HNode, findContentContainers soup = [] ↔
        ∀ sel ∈ containerSelectors, selectAll soup sel = []) ∧
    (∀ (base pageUrl : List Char) (soup : HNode),
        findContentContainers soup = [] →
        parseDesignerPage base soup pageUrl =
          (extractAllImages base soup).map (fun u =>
            { brand_name := brandNameOrUnknown soup
              image_url := u
              local_image_path := []
              colors := extractAllPantoneColors soup
              page_url := pageUrl })) ∧
    (∀ (base : List Char) (soup : HNode),
        extractAllImages base soup = fsDedup (collectImages base soup) ∧
        (extractAllImages base soup).Nodup ∧
        List.Sublist (extractAllImages base soup) (collectImages base soup)) ∧
    parseDesignerPage defaultBase docTier2 [] =
      [{ brand_name := unknownLit
         image_url := "https://cdn.example.com/looks/runway-2024.jpg".data
         local_image_path := []
         colors := [mkPantoneColor "19-4052".data "Classic Blue".data none]
         page_url := [] }] := by
  refine ⟨?_, ?_, ?_, by decide⟩
  · intro soup
    unfold findContentContainers
    rw [firstNonemptyL_eq_nil]
    constructor
    · intro h sel hsel
      exact h (selectAll soup sel) (List.mem_map_of_mem (fun s => selectAll soup s) hsel)
    · intro h l hl
      obtain ⟨sel, hsel, rfl⟩ := List.mem_map.mp hl
      exact h sel hsel
  · intro base pageUrl soup h
    unfold parseDesignerPage
    rw [h]
    rfl
  · intro base soup
    exact ⟨rfl, fsDedup_nodup _, fsDedup_sublist _⟩

/-- C6 witness: the Tier-2 shape applied at the concrete document. -/
theorem tier2_fallback_spec_witness :
    parseDesignerPage defaultBase docTier2 [] =
      (extractAllImages defaultBase docTier2).map (fun u =>
        { brand_name := brandNameOrUnknown docTier2
          image_url := u
          local_image_path := []
          colors := extractAllPantoneColors docTier2
          page_url := [] }) :=
  tier2_fallback_spec.2.1 defaultBase [] docTier2 (by rfl)

end Scraper

namespace Scraper

/-- C9: a reference already in the in-run history is answered from the
cache: the task returns the cached local path, the state — including the
trace of network requests — is unchanged, and re-running a whole batch on
such a reference performs zero additional transport calls for it. -/
theorem history_hit_no_network (env : DLEnv) (st : DLState) (u p : String)
    (h : dictGet st.history u = some p) :
    downloadSingle env st u = (st, (u, some p)) ∧
    (downloadAllAsync env st [u]).1 = st ∧
    (downloadAllAsync env st [u]).1.netCalls = st.netCalls ∧
    (downloadAllAsync env st [u]).2 = [(u, some p)] := by
  have hds := downloadSingle_cached env st u p h
  have hr : runBatch env st [u] = (st, [(u, some p)]) := by
    show ((downloadSingle env st u).1, [(downloadSingle env st u).2]) =
      (st, [(u, some p)])
    rw [hds]
  have hda : downloadAllAsync env st [u] = (st, [(u, some p)]) := by
    unfold downloadAllAsync
    rw [if_neg (by simp)]
    show ((runBatch env st [u]).1, buildResultMap (runBatch env st [u]).2) = _
    rw [hr]
    rfl
  exact ⟨hds, by rw [hda], by rw [hda], by rw [hda]⟩

/-- C9 witness: a one-entry history answers its own URL from cache. -/
theorem history_hit_no_network_witness :
    downloadSingle envC1
      { downloaded_count := 3, failed_count := 1,
        history := [("https://example.com/a.jpg", "a.jpg")],
        files := ["a.jpg"], netCalls := [] } "https://example.com/a.jpg" =
      ({ downloaded_count := 3, failed_count := 1,
         history := [("https://example.com/a.jpg", "a.jpg")],
         files := ["a.jpg"], netCalls := [] }, ("https://example.com/a.jpg",
         some "a.jpg")) :=
  (history_hit_no_network envC1 _ "https://example.com/a.jpg" "a.jpg"
    (by decide)).1

end Scraper

namespace Scraper

theorem filter_some_none_length (env : DLEnv) :
    ∀ urls : List String,
      (urls.filter (fun u => (env.fetch u).isSome)).length +
        (urls.filter (fun u => (env.fetch u).isNone)).length = urls.length := by
  intro urls
  induction urls with
  | nil => rfl
  | cons u rest ih =>
    rw [List.filter_cons, List.filter_cons]
    cases hf : env.fetch u <;> simp [List.length_cons] <;> omega

/-- The transport and initial state of the C3 witness: two references, one
failing. -/
def envC3 : DLEnv :=
  { fetch := fun u => if u = "https://x.example/bad.jpg" then none else some "IMG"
    hash12 := fun _ => "d41d8cd98f00" }

def stC3 : DLState :=
  { downloaded_count := 7, failed_count := 7, history := [], files := [],
    netCalls := [] }

/-- C3: a batch of N pairwise-distinct, not-yet-resolved references run on a
retriever with freshly reset counters, where M references fail and the rest
succeed as the transport dictates: the statistics report
`downloaded = N − M`, `failed = M`, `total = N`; the result map has exactly
N entries, keyed by the URLs in order; failed references map to absence and
successful ones to a path. -/
theorem batch_stats_spec (env : DLEnv) (st : DLState) (urls : List String)
    (hnodup : urls.Nodup)
    (hfresh : ∀ u ∈ urls, dictGet st.history u = none) :
    getDownloadStats (downloadAllAsync env (resetStats st) urls).1 =
      (urls.length - (urls.filter (fun u => (env.fetch u).isNone)).length,
       (urls.filter (fun u => (env.fetch u).isNone)).length,
       urls.length) ∧
    (downloadAllAsync env (resetStats st) urls).2.length = urls.length ∧
    (downloadAllAsync env (resetStats st) urls).2.map Prod.fst = urls ∧
    (∀ u op, (u, op) ∈ (downloadAllAsync env (resetStats st) urls).2 →
      ((env.fetch u = none → op = none) ∧
       ((env.fetch u).isSome → ∃ p, op = some p))) := by
  have hfresh0 : ∀ u ∈ urls, dictGet (resetStats st).history u = none := hfresh
  obtain ⟨h1, h2, _h3, h4⟩ := runBatch_stats env urls (resetStats st) hnodup hfresh0
  have hfst : (runBatch env (resetStats st) urls).2.map Prod.fst = urls :=
    runBatch_fst env urls (resetStats st)
  have hsum := filter_some_none_length env urls
  cases urls with
  | nil =>
    refine ⟨by rfl, by rfl, by rfl, ?_⟩
    intro u op hm
    simp [downloadAllAsync] at hm
  | cons u0 rest =>
    have hall : downloadAllAsync env (resetStats st) (u0 :: rest) =
        ((runBatch env (resetStats st) (u0 :: rest)).1,
         buildResultMap (runBatch env (resetStats st) (u0 :: rest)).2) := by
      unfold downloadAllAsync
      rw [if_neg (by simp)]
    have hbm : buildResultMap (runBatch env (resetStats st) (u0 :: rest)).2 =
        (runBatch env (resetStats st) (u0 :: rest)).2 :=
      buildResultMap_eq_self _ (by rw [hfst]; exact hnodup)
    have hd0 : (resetStats st).downloaded_count = 0 := rfl
    have hf0 : (resetStats st).failed_count = 0 := rfl
    rw [hall, hbm]
    refine ⟨?_, ?_, hfst, h4⟩
    · unfold getDownloadStats
      rw [h1, h2, hd0, hf0, Prod.mk.injEq, Prod.mk.injEq]
      exact ⟨by omega, by omega, by omega⟩
    · calc (runBatch env (resetStats st) (u0 :: rest)).2.length
          = ((runBatch env (resetStats st) (u0 :: rest)).2.map Prod.fst).length := by
            rw [List.length_map]
        _ = (u0 :: rest).length := by rw [hfst]

/-- C3 witness: one success and one failure. -/
theorem batch_stats_spec_witness :
    getDownloadStats (downloadAllAsync envC3 (resetStats stC3)
      ["https://x.example/ok.jpg", "https://x.example/bad.jpg"]).1 =
      (2 - 1, 1, 2) :=
  (batch_stats_spec envC3 stC3
    ["https://x.example/ok.jpg", "https://x.example/bad.jpg"]
    (by decide) (fun u _ => rfl)).1

end Scraper

namespace Scraper

/-- C10: the keys of the mapping `retrieveAll` returns are exactly the
distinct URLs of the input in first-seen order — duplicate occurrences
collapse to one entry, so an input with duplicates yields a mapping with
fewer entries than the input has elements. -/
theorem resultmap_keys_spec (env : DLEnv) (st : DLState) (urls : List String) :
    (downloadAllAsync env st urls).2.map Prod.fst = fsDedup urls ∧
    ((downloadAllAsync env st urls).2.map Prod.fst).Nodup ∧
    (¬ urls.Nodup →
      (downloadAllAsync env st urls).2.length < urls.length) := by
  cases urls with
  | nil =>
    refine ⟨by rfl, by simp [downloadAllAsync], ?_⟩
    intro h
    exact absurd List.nodup_nil h
  | cons u0 rest =>
    have hall : downloadAllAsync env st (u0 :: rest) =
        ((runBatch env st (u0 :: rest)).1,
         buildResultMap (runBatch env st (u0 :: rest)).2) := by
      unfold downloadAllAsync
      rw [if_neg (by simp)]
    have hkeys : (buildResultMap (runBatch env st (u0 :: rest)).2).map Prod.fst =
        fsDedup (u0 :: rest) := by
      rw [buildResultMap_keys, runBatch_fst]
    refine ⟨by rw [hall]; exact hkeys, ?_, ?_⟩
    · rw [hall]
      show (buildResultMap (runBatch env st (u0 :: rest)).2).map Prod.fst |>.Nodup
      rw [hkeys]
      exact fsDedup_nodup (u0 :: rest)
    · intro hdup
      rw [hall]
      show (buildResultMap (runBatch env st (u0 :: rest)).2).length < _
      calc (buildResultMap (runBatch env st (u0 :: rest)).2).length
          = ((buildResultMap (runBatch env st (u0 :: rest)).2).map Prod.fst).length := by
            rw [List.length_map]
        _ = (fsDedup (u0 :: rest)).length := by rw [hkeys]
        _ < (u0 :: rest).length := fsDedup_length_lt (u0 :: rest) hdup

/-- C10 witness: a duplicated input collapses to a single entry. -/
theorem resultmap_keys_spec_witness :
    ¬ (["https://x.example/a.jpg", "https://x.example/a.jpg"] : List String).Nodup ∧
    (downloadAllAsync envC1 stC1
      ["https://x.example/a.jpg", "https://x.example/a.jpg"]).2.length < 2 :=
  ⟨by decide, (resultmap_keys_spec envC1 stC1
      ["https://x.example/a.jpg", "https://x.example/a.jpg"]).2.2 (by decide)⟩

end Scraper
